import Mathlib

/-!
STKMetalData.h : shared host / shader data layouts

A verification development for `Sources/StructureKit/Metal/STKMetalData.h`.

The header is a catalog of struct and enum declarations compiled for two
targets (host code and Metal shader code).  It is embedded here as data, in
source order, together with the two preprocessor macros `ST_IS_METAL` and
`ST_IF_METAL` that make the two targets differ.
-/

namespace STKMetalData

/-! Preprocessor -/

/-- Compilation target of the header: `metal` when `__METAL_VERSION__` is
defined, `host` otherwise. -/
inductive Target
  | host
  | metal
  deriving DecidableEq, Repr

/-- Value of the macro `ST_IS_METAL` (header lines 33-40). -/
def ST_IS_METAL : Target → Nat
  | .metal => 1
  | .host => 0

/-! Enumerations (header lines 141-152) -/

/-- Enumerator `STKVertexAttrPosition = 0` of `enum STKVertexAttr`. -/
def STKVertexAttrPosition : Nat := 0

/-- Enumerator `STKVertexAttrAddition = 1` of `enum STKVertexAttr`. -/
def STKVertexAttrAddition : Nat := 1

/-- Enumerator `STKVertexBufferIndexUniforms = 2` of `enum STKVertexBufferIndex`. -/
def STKVertexBufferIndexUniforms : Nat := 2

/-! Types and declarations -/

/-- Scalar, vector and matrix type names used by the header.  All of them
come from outside the header (`simd/simd.h`, `stdbool.h`, the Metal
standard library). -/
inductive Prim
  | float
  | uint32_t
  | bool
  | vector_float2
  | vector_float3
  | vector_float4
  | matrix_float4x4
  | float2
  | float4
  deriving DecidableEq, Repr

/-- Type of a field: a primitive or `struct <name>`. -/
inductive Ty
  | prim (p : Prim)
  | struct (name : String)
  deriving DecidableEq, Repr

/-- Shader attribute decorations appearing in the header. -/
inductive Attr
  | attribute (index : Nat)
  | position
  deriving DecidableEq, Repr

/-- The macro `ST_IF_METAL(x)`: expands to `x` for the shader target and to
nothing for the host target (header lines 33-40). -/
def ST_IF_METAL (t : Target) (x : List Attr) : List Attr :=
  match t with
  | .metal => x
  | .host => []

/-- A field as written in the header: `ty name bare ST_IF_METAL(guarded);`. -/
structure SrcField where
  ty : Ty
  name : String
  bare : List Attr := []
  guarded : List Attr := []
  deriving DecidableEq, Repr

/-- A struct declaration as written in the header. -/
structure SrcStruct where
  name : String
  fields : List SrcField
  deriving DecidableEq, Repr

/-- A top-level item of the header: a struct declared unconditionally, or a
struct inside the `#if ST_IS_METAL ... #endif` block. -/
inductive Item
  | always (d : SrcStruct)
  | ifIsMetal (d : SrcStruct)
  deriving DecidableEq, Repr

/-- A field after preprocessing. -/
structure Field where
  ty : Ty
  name : String
  attrs : List Attr
  deriving DecidableEq, Repr

/-- A struct after preprocessing. -/
structure Struct where
  name : String
  fields : List Field
  deriving DecidableEq, Repr

/-- Shorthand for an undecorated field of primitive type. -/
def fld (p : Prim) (name : String) : SrcField :=
  { ty := .prim p, name := name }

/-- Shorthand for a field decorated through `ST_IF_METAL([[attribute(i)]])`. -/
def fldAttr (p : Prim) (name : String) (i : Nat) : SrcField :=
  { ty := .prim p, name := name, guarded := [.attribute i] }

/-! The header, in source order -/

def STKIntrinsicsMetal : SrcStruct :=
  { name := "STKIntrinsicsMetal",
    fields := [fld .float "cx", fld .float "cy", fld .float "fx", fld .float "fy",
               fld .uint32_t "width", fld .uint32_t "height"] }

def STKUniformsColorTexture : SrcStruct :=
  { name := "STKUniformsColorTexture",
    fields := [fld .matrix_float4x4 "projection"] }

def STKUniformsDepthTexture : SrcStruct :=
  { name := "STKUniformsDepthTexture",
    fields := [fld .matrix_float4x4 "projection", fld .float "depthMin",
               fld .float "depthMax", fld .float "alpha"] }

def STKUniformsDepthOverlay : SrcStruct :=
  { name := "STKUniformsDepthOverlay",
    fields := [fld .matrix_float4x4 "projection", fld .matrix_float4x4 "cameraPose",
               { ty := .struct "STKIntrinsicsMetal", name := "cameraIntrinsics" },
               fld .matrix_float4x4 "cubeModelInv", fld .float "depthMin",
               fld .float "depthMax", fld .float "alpha"] }

def STKUniformsDepthBandOverlay : SrcStruct :=
  { name := "STKUniformsDepthBandOverlay",
    fields := [fld .matrix_float4x4 "projection", fld .matrix_float4x4 "cameraPose",
               { ty := .struct "STKIntrinsicsMetal", name := "cameraIntrinsics" },
               fld .matrix_float4x4 "cubeModelInv", fld .float "alpha",
               fld .float "validRangeMinMM", fld .float "validRangeMaxMM",
               fld .vector_float4 "validRangeColor", fld .vector_float4 "outOfRangeColor",
               fld .float "feather"] }

def STKUniformsLine : SrcStruct :=
  { name := "STKUniformsLine",
    fields := [fld .matrix_float4x4 "model", fld .matrix_float4x4 "view",
               fld .matrix_float4x4 "projection"] }

def STKUniformsCube : SrcStruct :=
  { name := "STKUniformsCube",
    fields := [fld .matrix_float4x4 "model", fld .matrix_float4x4 "view",
               fld .matrix_float4x4 "projection",
               { ty := .struct "STKIntrinsicsMetal", name := "cameraIntrinsics" },
               fld .bool "useOcclusion"] }

def STKUniformsMesh : SrcStruct :=
  { name := "STKUniformsMesh",
    fields := [fld .matrix_float4x4 "modelViewMatrix",
               fld .matrix_float4x4 "projectionMatrix", fld .vector_float4 "color"] }

def STKUniformsMeshPoints : SrcStruct :=
  { name := "STKUniformsMeshPoints",
    fields := [fld .matrix_float4x4 "modelViewMatrix",
               fld .matrix_float4x4 "projectionMatrix", fld .float "pointSize"] }

def STKUniformsMeshWireframe : SrcStruct :=
  { name := "STKUniformsMeshWireframe",
    fields := [fld .matrix_float4x4 "modelViewMatrix",
               fld .matrix_float4x4 "projectionMatrix", fld .vector_float4 "color",
               fld .bool "useXray"] }

def STKUniformsThickLine : SrcStruct :=
  { name := "STKUniformsThickLine",
    fields := [fld .matrix_float4x4 "modelViewMatrix",
               fld .matrix_float4x4 "projectionMatrix", fld .vector_float4 "color",
               fld .float "width"] }

def STKVertexTex : SrcStruct :=
  { name := "STKVertexTex",
    fields := [fld .vector_float3 "position", fld .vector_float2 "texCoord"] }

def STKVertexNormal : SrcStruct :=
  { name := "STKVertexNormal",
    fields := [fldAttr .vector_float3 "position" STKVertexAttrPosition,
               fldAttr .vector_float3 "normal" STKVertexAttrAddition] }

def STKVertexColor : SrcStruct :=
  { name := "STKVertexColor",
    fields := [fldAttr .vector_float3 "position" STKVertexAttrPosition,
               fldAttr .vector_float3 "color" STKVertexAttrAddition] }

def STKVertexTexModel : SrcStruct :=
  { name := "STKVertexTexModel",
    fields := [fldAttr .vector_float3 "position" STKVertexAttrPosition,
               fldAttr .vector_float2 "texCoord" STKVertexAttrAddition] }

def STKVertexTexOut : SrcStruct :=
  { name := "STKVertexTexOut",
    fields := [{ ty := .prim .float4, name := "position", bare := [.position] },
               fld .float2 "texCoord"] }

/-- The struct declarations of the header in source order; `STKVertexTexOut`
is the only one inside `#if ST_IS_METAL`. -/
def header : List Item :=
  [ .always STKIntrinsicsMetal,
    .always STKUniformsColorTexture,
    .always STKUniformsDepthTexture,
    .always STKUniformsDepthOverlay,
    .always STKUniformsDepthBandOverlay,
    .always STKUniformsLine,
    .always STKUniformsCube,
    .always STKUniformsMesh,
    .always STKUniformsMeshPoints,
    .always STKUniformsMeshWireframe,
    .always STKUniformsThickLine,
    .always STKVertexTex,
    .always STKVertexNormal,
    .always STKVertexColor,
    .always STKVertexTexModel,
    .ifIsMetal STKVertexTexOut ]

/-- Every struct name written in the header, whatever the target. -/
def declaredNames : List String :=
  header.map fun
    | .always d => d.name
    | .ifIsMetal d => d.name

/-- Preprocess one field for a target. -/
def expandField (t : Target) (f : SrcField) : Field :=
  { ty := f.ty, name := f.name, attrs := f.bare ++ ST_IF_METAL t f.guarded }

/-- Preprocess one struct for a target. -/
def expandStruct (t : Target) (d : SrcStruct) : Struct :=
  { name := d.name, fields := d.fields.map (expandField t) }

/-- Preprocess one item: an `#if ST_IS_METAL` block survives only when
`ST_IS_METAL` is non-zero. -/
def expandItem (t : Target) : Item → Option Struct
  | .always d => some (expandStruct t d)
  | .ifIsMetal d => if ST_IS_METAL t ≠ 0 then some (expandStruct t d) else none

/-- The translation unit seen by a target: the structs it declares, in order. -/
def preprocess (t : Target) : List Struct :=
  header.filterMap (expandItem t)

/-- Look a struct up by name in the translation unit of a target. -/
def findStruct (t : Target) (name : String) : Option Struct :=
  (preprocess t).find? fun s => s.name == name

/-- A field with its decorations erased: what determines memory layout. -/
def Field.erase (f : Field) : Ty × String :=
  (f.ty, f.name)

/-- The uniform block structs: those named `STKUniforms...`. -/
def isUniformName (name : String) : Bool :=
  "STKUniforms".toList.isPrefixOf name.toList

/-- The uniform block structs of a target. -/
def uniformStructs (t : Target) : List Struct :=
  (preprocess t).filter fun s => isUniformName s.name

/-- Whether a field is a 4x4 single-precision matrix. -/
def Field.isMatrix (f : Field) : Bool :=
  f.ty == .prim .matrix_float4x4

/-! Memory layout

The header relies on the compiler to lay the structs out.  The rule below is
the usual one: every field is placed at the next multiple of its alignment,
a struct is aligned like its most aligned field, and its size is rounded up
to its alignment. -/

/-- Size and alignment of a type, in bytes. -/
structure TypeInfo where
  size : Nat
  align : Nat
  deriving DecidableEq, Repr

/-- Modelled from the spec: the size/alignment table of the scalar, vector
and matrix types, which the header takes from `simd/simd.h`, `stdbool.h` and
the Metal standard library (none of them part of the header).  The entries
for `float`, `uint32_t`, `bool`, `vector_float4` and `matrix_float4x4` are
the ones of the standard alignment rules; the 2- and 3-component vectors
follow the simd convention (8/8 and 16/16). -/
def stdTable : Prim → TypeInfo
  | .float => ⟨4, 4⟩
  | .uint32_t => ⟨4, 4⟩
  | .bool => ⟨1, 1⟩
  | .vector_float2 => ⟨8, 8⟩
  | .vector_float3 => ⟨16, 16⟩
  | .vector_float4 => ⟨16, 16⟩
  | .matrix_float4x4 => ⟨64, 16⟩
  | .float2 => ⟨8, 8⟩
  | .float4 => ⟨16, 16⟩

/-- A primitive storage cell of a struct, nested structs flattened. -/
structure Leaf where
  path : String
  prim : Prim
  offset : Nat
  size : Nat
  deriving DecidableEq, Repr

/-- Placement of one field. -/
structure FieldLayout where
  name : String
  ty : Ty
  offset : Nat
  size : Nat
  align : Nat
  deriving DecidableEq, Repr

/-- Layout of a struct: its fields, its flattened cells, size and alignment. -/
structure StructLayout where
  fields : List FieldLayout
  leaves : List Leaf
  size : Nat
  align : Nat
  deriving DecidableEq, Repr

/-- Layouts of the structs declared so far. -/
abbrev Env := List (String × StructLayout)

/-- Round `x` up to the next multiple of `a`. -/
def alignUp (x a : Nat) : Nat :=
  (x + a - 1) / a * a

/-- Modelled from the spec: placement of one field under the target
platform's standard alignment rules (the compiler's layout rule is not part
of the header).  The field goes to the first multiple of its alignment at or
after `cur`; a field of struct type needs that struct to be declared
already. -/
def placeField (tbl : Prim → TypeInfo) (env : Env) (cur : Nat) (f : Field) :
    Option (FieldLayout × List Leaf) :=
  match f.ty with
  | .prim p =>
    let off := alignUp cur (tbl p).align
    some (⟨f.name, f.ty, off, (tbl p).size, (tbl p).align⟩, [⟨f.name, p, off, (tbl p).size⟩])
  | .struct n =>
    match env.lookup n with
    | none => none
    | some L =>
      let off := alignUp cur L.align
      some (⟨f.name, f.ty, off, L.size, L.align⟩,
            L.leaves.map fun l => ⟨f.name ++ "." ++ l.path, l.prim, off + l.offset, l.size⟩)

/-- Modelled from the spec: fields are placed one after the other in
declaration order. -/
def layoutFields (tbl : Prim → TypeInfo) (env : Env) :
    Nat → List Field → Option (List FieldLayout × List Leaf)
  | _, [] => some ([], [])
  | cur, f :: fs =>
    match placeField tbl env cur f with
    | none => none
    | some (fl, lv) =>
      match layoutFields tbl env (fl.offset + fl.size) fs with
      | none => none
      | some (fls, lvs) => some (fl :: fls, lv ++ lvs)

/-- End of the last field (0 for no field). -/
def endOffset (fls : List FieldLayout) : Nat :=
  match fls.getLast? with
  | none => 0
  | some f => f.offset + f.size

/-- Modelled from the spec: a struct is aligned like its most aligned field
and its size is the end of its last field rounded up to that alignment. -/
def layoutStruct (tbl : Prim → TypeInfo) (env : Env) (s : Struct) : Option StructLayout :=
  match layoutFields tbl env 0 s.fields with
  | none => none
  | some (fls, lvs) =>
    let align := fls.foldl (fun a f => max a f.align) 1
    some ⟨fls, lvs, alignUp (endOffset fls) align, align⟩

/-- Lay out a translation unit, struct after struct. -/
def layoutAll (tbl : Prim → TypeInfo) : List Struct → Env → Option Env
  | [], env => some env
  | s :: ss, env =>
    match layoutStruct tbl env s with
    | none => none
    | some L => layoutAll tbl ss (env ++ [(s.name, L)])

/-- Layout of the struct `name` when the header is compiled for target `t`;
`none` when that target does not declare it. -/
def layoutOf (tbl : Prim → TypeInfo) (t : Target) (name : String) : Option StructLayout :=
  match layoutAll tbl (preprocess t) [] with
  | none => none
  | some env => env.lookup name

/-- Offset of the field `field` of struct `name` for target `t`. -/
def offsetOf (tbl : Prim → TypeInfo) (t : Target) (name field : String) : Option Nat :=
  match layoutOf tbl t name with
  | none => none
  | some L => (L.fields.find? fun f => f.name == field).map fun f => f.offset

/-- Size of struct `name` for target `t`. -/
def sizeOf (tbl : Prim → TypeInfo) (t : Target) (name : String) : Option Nat :=
  (layoutOf tbl t name).map fun L => L.size

/-- Alignment of struct `name` for target `t`. -/
def alignOf (tbl : Prim → TypeInfo) (t : Target) (name : String) : Option Nat :=
  (layoutOf tbl t name).map fun L => L.align

/-! Values and bytes

A struct value is given by the raw bytes of each of its cells (a `float` is
its four bytes, bit for bit).  Host code stores the value in a buffer laid
out by the host compilation of the header; shader code reads the buffer
through the shader compilation of the same struct. -/

/-- One byte. -/
abbrev Byte := Fin 256

/-- Value of a struct: the bytes of each cell, in declaration order. -/
abbrev Value := List (List Byte)

/-- Overwrite `buf` with the bytes `v` starting at `off`. -/
def patch (buf : List Byte) (off : Nat) (v : List Byte) : List Byte :=
  buf.take off ++ v ++ buf.drop (off + v.length)

/-- Store every cell at its offset. -/
def writeLeaves : List Byte → List Leaf → Value → List Byte
  | buf, l :: ls, v :: vs => writeLeaves (patch buf l.offset v) ls vs
  | buf, _, _ => buf

/-- Load every cell from its offset. -/
def readLeaves (buf : List Byte) (ls : List Leaf) : Value :=
  ls.map fun l => (buf.drop l.offset).take l.size

/-- Whether `v` has one entry per cell of struct `name`, each of the cell's
size. -/
def wellTyped (t : Target) (name : String) (v : Value) : Bool :=
  match layoutOf stdTable t name with
  | none => false
  | some L => v.map List.length == L.leaves.map Leaf.size

/-- Modelled from the spec: "a value written into a uniform struct by host
code" (the host and shader programs are not part of the header).  The value
is stored in a zeroed buffer of the struct's size, each cell at its offset
in the layout of target `t`. -/
def serialize (t : Target) (name : String) (v : Value) : Option (List Byte) :=
  match layoutOf stdTable t name with
  | none => none
  | some L =>
    if v.map List.length = L.leaves.map Leaf.size then
      some (writeLeaves (List.replicate L.size 0) L.leaves v)
    else none

/-- Modelled from the spec: "read back through a shader-side view of the
same bytes" (the host and shader programs are not part of the header).
Every cell is loaded from its offset in the layout of target `t`. -/
def deserialize (t : Target) (name : String) (bytes : List Byte) : Option Value :=
  match layoutOf stdTable t name with
  | none => none
  | some L => if bytes.length = L.size then some (readLeaves bytes L.leaves) else none

/-- Cells start at or after `k`, follow each other without overlap and end
within `n` bytes. -/
def leavesOk : Nat → List Leaf → Nat → Bool
  | k, [], n => decide (k ≤ n)
  | k, l :: ls, n => decide (k ≤ l.offset) && leavesOk (l.offset + l.size) ls n

/-- Names of the structs declared by a target. -/
def structNames (t : Target) : List String :=
  (preprocess t).map fun s => s.name

/-- Both targets lay `name` out identically under the standard table, with
cells that do not overlap. -/
def layoutAgrees (name : String) : Bool :=
  match layoutOf stdTable .host name, layoutOf stdTable .metal name with
  | some L, some M => decide (L = M) && leavesOk 0 L.leaves L.size
  | _, _ => false

/-- Little-endian bytes of a 32-bit pattern. -/
def le32 (n : Nat) : List Byte :=
  [⟨n % 256, Nat.mod_lt _ (by decide)⟩, ⟨n / 256 % 256, Nat.mod_lt _ (by decide)⟩,
   ⟨n / 65536 % 256, Nat.mod_lt _ (by decide)⟩, ⟨n / 16777216 % 256, Nat.mod_lt _ (by decide)⟩]

/-- Bytes of a vector or matrix given by the bit patterns of its floats. -/
def floats (bits : List Nat) : List Byte :=
  bits.flatMap le32

/-- Byte of a `bool`. -/
def boolByte (b : Bool) : Byte :=
  if b then 1 else 0

/-- A depth-overlay uniform block: a perspective-like projection, the
identity camera pose and cube transform, intrinsics cx = 320, cy = 240,
fx = fy = 500 (IEEE-754 single precision bit patterns), width = 640,
height = 480, depthMin = 0.1, depthMax = 5.0, alpha = 0.8. -/
def depthOverlayExample : Value :=
  [ floats [0x40000000, 0, 0, 0,  0, 0x40000000, 0, 0,
            0, 0, 0xBF800000, 0xBF800000,  0, 0, 0xBF000000, 0],
    floats [0x3F800000, 0, 0, 0,  0, 0x3F800000, 0, 0,
            0, 0, 0x3F800000, 0,  0, 0, 0, 0x3F800000],
    le32 0x43A00000, le32 0x43700000, le32 0x43FA0000, le32 0x43FA0000,
    le32 640, le32 480,
    floats [0x3F800000, 0, 0, 0,  0, 0x3F800000, 0, 0,
            0, 0, 0x3F800000, 0,  0, 0, 0, 0x3F800000],
    le32 0x3DCCCCCD, le32 0x40A00000, le32 0x3F4CCCCD ]

/-! Checks on translation units -/

/-- A struct with its decorations erased. -/
def Struct.erase (s : Struct) : String × List (Ty × String) :=
  (s.name, s.fields.map Field.erase)

/-- A field of struct type refers to one of `keys`. -/
def fieldScoped (keys : List String) (f : Field) : Bool :=
  match f.ty with
  | .prim _ => true
  | .struct n => keys.contains n

/-- Every struct only nests structs declared before it. -/
def wellScoped : List String → List Struct → Bool
  | _, [] => true
  | keys, s :: ss => s.fields.all (fieldScoped keys) && wellScoped (keys ++ [s.name]) ss

/-- Name, offset, size and alignment of every field of struct `name`. -/
def fieldTable (tbl : Prim → TypeInfo) (t : Target) (name : String) :
    Option (List (String × Nat × Nat × Nat)) :=
  (layoutOf tbl t name).map fun L => L.fields.map fun f => (f.name, f.offset, f.size, f.align)

/-- Placement of the field `field` of struct `name`. -/
def fieldLayout (tbl : Prim → TypeInfo) (t : Target) (name field : String) :
    Option FieldLayout :=
  match layoutOf tbl t name with
  | none => none
  | some L => L.fields.find? fun f => f.name == field

/-- Both targets declare `name` with the same field names, types and order. -/
def sameDecl (name : String) : Bool :=
  match findStruct .host name, findStruct .metal name with
  | some h, some m => decide (h.erase = m.erase)
  | _, _ => false

/-- Field offsets respect field alignments; the size respects the struct
alignment and, except for `STKIntrinsicsMetal`, is a multiple of 16. -/
def alignedLayout (t : Target) (name : String) : Bool :=
  match layoutOf stdTable t name with
  | none => false
  | some L =>
    L.fields.all (fun f => f.offset % f.align == 0) && L.size % L.align == 0 &&
      (name == "STKIntrinsicsMetal" || L.size % 16 == 0)

/-! Storing and loading cells -/

theorem patch_length (buf : List Byte) (off : Nat) (v : List Byte)
    (h : off + v.length ≤ buf.length) : (patch buf off v).length = buf.length := by
  simp only [patch, List.length_append, List.length_take, List.length_drop]
  omega

theorem patch_take (buf : List Byte) (off k : Nat) (v : List Byte)
    (hk : k ≤ off) (h : off + v.length ≤ buf.length) :
    (patch buf off v).take k = buf.take k := by
  have hlen : (buf.take off).length = off := by
    simp only [List.length_take]; omega
  unfold patch
  rw [List.append_assoc, List.take_append_of_le_length (by omega), List.take_take]
  congr 1
  omega

theorem patch_slice (buf : List Byte) (off : Nat) (v : List Byte)
    (h : off + v.length ≤ buf.length) :
    ((patch buf off v).drop off).take v.length = v := by
  have hlen : (buf.take off).length = off := by
    simp only [List.length_take]; omega
  unfold patch
  rw [List.append_assoc, List.drop_append_of_le_length (by omega)]
  have : List.drop off (List.take off buf) = [] := by
    apply List.drop_eq_nil_of_le; omega
  rw [this, List.nil_append, List.take_left']
  rfl

theorem slice_of_take (a b : List Byte) (o s : Nat) (h : a.take (o + s) = b.take (o + s)) :
    (a.drop o).take s = (b.drop o).take s := by
  have e : ∀ l : List Byte, (l.drop o).take s = (l.take (o + s)).drop o := by
    intro l
    rw [List.drop_take]
    congr 1
    omega
  rw [e a, e b, h]

theorem leavesOk_le (ls : List Leaf) : ∀ (k n : Nat), leavesOk k ls n = true → k ≤ n := by
  induction ls with
  | nil => intro k n h; simpa [leavesOk] using h
  | cons l ls ih =>
    intro k n h
    simp only [leavesOk, Bool.and_eq_true, decide_eq_true_eq] at h
    have := ih _ _ h.2
    omega

theorem take_of_take (a b : List Byte) (k m : Nat) (hk : k ≤ m) (h : a.take m = b.take m) :
    a.take k = b.take k := by
  have e : ∀ l : List Byte, l.take k = (l.take m).take k := by
    intro l
    rw [List.take_take, Nat.min_eq_left hk]
  rw [e a, e b, h]

theorem writeLeaves_spec (ls : List Leaf) :
    ∀ (vs : Value) (buf : List Byte) (k : Nat),
      leavesOk k ls buf.length = true →
      vs.map List.length = ls.map Leaf.size →
      (writeLeaves buf ls vs).length = buf.length ∧
      (writeLeaves buf ls vs).take k = buf.take k ∧
      readLeaves (writeLeaves buf ls vs) ls = vs := by
  induction ls with
  | nil =>
    intro vs buf k _ hv
    cases vs with
    | nil => simp [writeLeaves, readLeaves]
    | cons v vs => simp at hv
  | cons l ls ih =>
    intro vs buf k hok hv
    cases vs with
    | nil => simp at hv
    | cons v vs =>
      simp only [List.map_cons, List.cons.injEq] at hv
      obtain ⟨hvl, hvs⟩ := hv
      simp only [leavesOk, Bool.and_eq_true, decide_eq_true_eq] at hok
      obtain ⟨hk, hrest⟩ := hok
      have hend : l.offset + l.size ≤ buf.length := leavesOk_le ls _ _ hrest
      have hfit : l.offset + v.length ≤ buf.length := by omega
      have hlen : (patch buf l.offset v).length = buf.length := patch_length buf _ v hfit
      have hrest2 : leavesOk (l.offset + l.size) ls (patch buf l.offset v).length = true := by
        rw [hlen]; exact hrest
      obtain ⟨h1, h2, h3⟩ := ih vs (patch buf l.offset v) (l.offset + l.size) hrest2 hvs
      refine ⟨?_, ?_, ?_⟩
      · simp only [writeLeaves]; omega
      · simp only [writeLeaves]
        rw [take_of_take _ _ k (l.offset + l.size) (by omega) h2]
        exact patch_take buf _ k v hk hfit
      · simp only [writeLeaves]
        simp only [readLeaves, List.map_cons, List.cons.injEq]
        refine ⟨?_, h3⟩
        rw [slice_of_take _ _ l.offset l.size h2, ← hvl]
        exact patch_slice buf _ v hfit
/-! Layout ignores decorations -/

theorem placeField_congr (tbl : Prim → TypeInfo) (env : Env) (cur : Nat) (f g : Field)
    (h : f.erase = g.erase) : placeField tbl env cur f = placeField tbl env cur g := by
  obtain ⟨fty, fname, fattrs⟩ := f
  obtain ⟨gty, gname, gattrs⟩ := g
  simp only [Field.erase, Prod.mk.injEq] at h
  obtain ⟨rfl, rfl⟩ := h
  rfl

theorem layoutFields_congr (tbl : Prim → TypeInfo) (env : Env) (fs : List Field) :
    ∀ (gs : List Field) (cur : Nat), fs.map Field.erase = gs.map Field.erase →
      layoutFields tbl env cur fs = layoutFields tbl env cur gs := by
  induction fs with
  | nil =>
    intro gs cur h
    cases gs with
    | nil => rfl
    | cons g gs => simp at h
  | cons f fs ih =>
    intro gs cur h
    cases gs with
    | nil => simp at h
    | cons g gs =>
      simp only [List.map_cons, List.cons.injEq] at h
      simp only [layoutFields, placeField_congr tbl env cur f g h.1]
      cases placeField tbl env cur g with
      | none => rfl
      | some p => simp only [ih gs _ h.2]

theorem layoutStruct_congr (tbl : Prim → TypeInfo) (env : Env) (s r : Struct)
    (h : s.erase = r.erase) : layoutStruct tbl env s = layoutStruct tbl env r := by
  simp only [Struct.erase, Prod.mk.injEq] at h
  simp only [layoutStruct, layoutFields_congr tbl env s.fields r.fields 0 h.2]

theorem layoutAll_congr (tbl : Prim → TypeInfo) (ss : List Struct) :
    ∀ (rs : List Struct) (env : Env), ss.map Struct.erase = rs.map Struct.erase →
      layoutAll tbl ss env = layoutAll tbl rs env := by
  induction ss with
  | nil =>
    intro rs env h
    cases rs with
    | nil => rfl
    | cons r rs => simp at h
  | cons s ss ih =>
    intro rs env h
    cases rs with
    | nil => simp at h
    | cons r rs =>
      simp only [List.map_cons, List.cons.injEq] at h
      have hn : s.name = r.name := congrArg Prod.fst h.1
      simp only [layoutAll, layoutStruct_congr tbl env s r h.1, hn]
      cases layoutStruct tbl env r with
      | none => rfl
      | some L => simp only [ih rs _ h.2]

theorem layoutAll_append (tbl : Prim → TypeInfo) (s : Struct) (ss : List Struct) :
    ∀ env : Env, layoutAll tbl (ss ++ [s]) env =
      match layoutAll tbl ss env with
      | none => none
      | some e =>
        match layoutStruct tbl e s with
        | none => none
        | some L => some (e ++ [(s.name, L)]) := by
  induction ss with
  | nil =>
    intro env
    simp only [List.nil_append, layoutAll]
  | cons r ss ih =>
    intro env
    simp only [List.cons_append, layoutAll]
    cases layoutStruct tbl env r with
    | none => rfl
    | some L => exact ih _

theorem lookup_append_ne (e : Env) (name n : String) (L : StructLayout) (h : name ≠ n) :
    (e ++ [(n, L)]).lookup name = e.lookup name := by
  induction e with
  | nil =>
    have : (name == n) = false := by simpa using h
    simp [List.lookup, this]
  | cons p e ih =>
    obtain ⟨k, v⟩ := p
    simp only [List.cons_append, List.lookup]
    cases name == k with
    | true => rfl
    | false => exact ih

theorem lookup_isSome (e : Env) (name : String) (h : name ∈ e.map Prod.fst) :
    ∃ L, e.lookup name = some L := by
  induction e with
  | nil => simp at h
  | cons p e ih =>
    obtain ⟨k, v⟩ := p
    simp only [List.lookup]
    by_cases hk : name = k
    · subst hk
      exact ⟨v, by simp⟩
    · have hb : (name == k) = false := by simpa using hk
      simp only [hb]
      apply ih
      simpa [hk] using h

/-! Layout succeeds on well-scoped translation units -/

theorem placeField_some (tbl : Prim → TypeInfo) (env : Env) (cur : Nat) (f : Field)
    (h : fieldScoped (env.map Prod.fst) f = true) :
    ∃ p, placeField tbl env cur f = some p := by
  obtain ⟨ty, name, attrs⟩ := f
  cases ty with
  | prim p => exact ⟨_, rfl⟩
  | struct n =>
    simp only [fieldScoped, List.contains_eq_any_beq, List.any_eq_true, beq_iff_eq] at h
    have h : n ∈ env.map Prod.fst := by
      obtain ⟨x, hx, rfl⟩ := h
      exact hx
    obtain ⟨L, hL⟩ := lookup_isSome env n h
    simp only [placeField, hL]
    exact ⟨_, rfl⟩

theorem layoutFields_some (tbl : Prim → TypeInfo) (env : Env) (fs : List Field) :
    ∀ cur : Nat, fs.all (fieldScoped (env.map Prod.fst)) = true →
      ∃ p, layoutFields tbl env cur fs = some p := by
  induction fs with
  | nil => intro cur _; exact ⟨_, rfl⟩
  | cons f fs ih =>
    intro cur h
    simp only [List.all_cons, Bool.and_eq_true] at h
    obtain ⟨p, hp⟩ := placeField_some tbl env cur f h.1
    obtain ⟨q, hq⟩ := ih (p.1.offset + p.1.size) h.2
    obtain ⟨fl, lv⟩ := p
    simp only [layoutFields, hp, hq]
    exact ⟨_, rfl⟩

theorem layoutAll_some (tbl : Prim → TypeInfo) (ss : List Struct) :
    ∀ env : Env, wellScoped (env.map Prod.fst) ss = true →
      ∃ e, layoutAll tbl ss env = some e ∧
        e.map Prod.fst = env.map Prod.fst ++ ss.map fun s => s.name := by
  induction ss with
  | nil => intro env _; exact ⟨env, rfl, by simp⟩
  | cons s ss ih =>
    intro env h
    simp only [wellScoped, Bool.and_eq_true] at h
    obtain ⟨p, hp⟩ := layoutFields_some tbl env s.fields 0 h.1
    obtain ⟨fls, lvs⟩ := p
    have hs : ∃ L, layoutStruct tbl env s = some L := by
      simp only [layoutStruct, hp]
      exact ⟨_, rfl⟩
    obtain ⟨L, hL⟩ := hs
    have h2 : wellScoped ((env ++ [(s.name, L)]).map Prod.fst) ss = true := by
      simpa using h.2
    obtain ⟨e, he, hkeys⟩ := ih _ h2
    refine ⟨e, ?_, ?_⟩
    · simp only [layoutAll, hL, he]
    · simp [hkeys]

/-! The two translation units -/

theorem layoutOf_some (tbl : Prim → TypeInfo) (t : Target) (name : String)
    (h : name ∈ structNames t) : ∃ L, layoutOf tbl t name = some L := by
  have hw : wellScoped [] (preprocess t) = true := by cases t <;> decide
  obtain ⟨e, he, hkeys⟩ := layoutAll_some tbl (preprocess t) [] hw
  have hmem : name ∈ e.map Prod.fst := by
    rw [hkeys]
    simpa [structNames] using h
  obtain ⟨L, hL⟩ := lookup_isSome e name hmem
  exact ⟨L, by simp only [layoutOf, he, hL]⟩

theorem layoutOf_host_eq_metal (tbl : Prim → TypeInfo) (name : String)
    (hne : name ≠ "STKVertexTexOut") :
    layoutOf tbl .host name = layoutOf tbl .metal name := by
  have hsplit : preprocess .metal =
      (preprocess .metal).dropLast ++ [expandStruct .metal STKVertexTexOut] := by decide
  have herase : ((preprocess .metal).dropLast).map Struct.erase =
      (preprocess .host).map Struct.erase := by decide
  unfold layoutOf
  rw [hsplit, layoutAll_append, layoutAll_congr tbl _ _ [] herase]
  cases layoutAll tbl (preprocess .host) [] with
  | none => rfl
  | some e =>
    have hT : ∃ L, layoutStruct tbl e (expandStruct .metal STKVertexTexOut) = some L :=
      ⟨_, rfl⟩
    obtain ⟨L, hL⟩ := hT
    simp only [hL]
    exact (lookup_append_ne e name _ L hne).symm

theorem roundtrip_core (name : String) (v : Value)
    (hagree : layoutAgrees name = true) (hv : wellTyped .host name v = true) :
    ∃ L bytes, layoutOf stdTable .host name = some L ∧
      layoutOf stdTable .metal name = some L ∧
      serialize .host name v = some bytes ∧ serialize .metal name v = some bytes ∧
      bytes.length = L.size ∧ readLeaves bytes L.leaves = v ∧
      deserialize .metal name bytes = some v := by
  unfold layoutAgrees at hagree
  cases hL : layoutOf stdTable .host name with
  | none => simp [hL] at hagree
  | some L =>
    cases hM : layoutOf stdTable .metal name with
    | none => simp [hL, hM] at hagree
    | some M =>
      simp only [hL, hM, Bool.and_eq_true, decide_eq_true_eq] at hagree
      obtain ⟨rfl, hok⟩ := hagree
      have hv2 : v.map List.length = L.leaves.map Leaf.size := by
        simpa [wellTyped, hL] using hv
      have hok2 : leavesOk 0 L.leaves (List.replicate L.size (0 : Byte)).length = true := by
        simpa using hok
      obtain ⟨h1, _, h3⟩ := writeLeaves_spec L.leaves v (List.replicate L.size 0) 0 hok2 hv2
      have hlen : (writeLeaves (List.replicate L.size 0) L.leaves v).length = L.size := by
        simpa using h1
      refine ⟨L, writeLeaves (List.replicate L.size 0) L.leaves v, rfl, rfl, ?_, ?_, hlen, h3, ?_⟩
      · simp only [serialize, hL, hv2, if_true]
      · simp only [serialize, hM, hv2, if_true]
      · simp only [deserialize, hM, hlen, h3, if_true]

/-! Claims -/

/-- C1: the attribute and buffer index constants are position = 0,
addition (the secondary attribute slot) = 1 and uniform buffer = 2. -/
theorem index_constants :
    STKVertexAttrPosition = 0 ∧ STKVertexAttrAddition = 1 ∧
      STKVertexBufferIndexUniforms = 2 :=
  ⟨rfl, rfl, rfl⟩

/-- C2: the three index values are pairwise distinct, the uniform buffer
index is strictly greater than both vertex attribute indices, and the values
are contiguous: the uniform buffer index comes right after the last vertex
attribute index. -/
theorem indices_distinct_and_contiguous :
    [STKVertexAttrPosition, STKVertexAttrAddition, STKVertexBufferIndexUniforms].Nodup ∧
      STKVertexAttrPosition < STKVertexBufferIndexUniforms ∧
      STKVertexAttrAddition < STKVertexBufferIndexUniforms ∧
      STKVertexAttrAddition = STKVertexAttrPosition + 1 ∧
      STKVertexBufferIndexUniforms = STKVertexAttrAddition + 1 := by
  decide

/-- C3, as stated, fails: `STKVertexTexOut` is declared in the header but only
inside `#if ST_IS_METAL`, so the host target has no such struct (no size, no
field offsets) while the shader target lays it out in 32 bytes. -/
theorem texOut_has_no_host_layout :
    "STKVertexTexOut" ∈ declaredNames ∧
      findStruct .host "STKVertexTexOut" = none ∧
      sizeOf stdTable .host "STKVertexTexOut" = none ∧
      sizeOf stdTable .metal "STKVertexTexOut" = some 32 ∧
      ¬ (∀ name ∈ declaredNames,
          layoutOf stdTable .host name = layoutOf stdTable .metal name) := by
  refine ⟨by decide, by decide, by decide!, by decide!, ?_⟩
  intro h
  have h1 := h "STKVertexTexOut" (by decide)
  have h2 : layoutOf stdTable .host "STKVertexTexOut" ≠
      layoutOf stdTable .metal "STKVertexTexOut" := by decide!
  exact h2 h1

/-- C3, amended: every struct declared in the header other than
`STKVertexTexOut` is seen by both targets with the same field names, types
and order, and for every size/alignment table of the scalar, vector and
matrix types it has a layout whose size and field offsets are the same for
the host target and for the shader target. -/
theorem layout_same_on_both_targets (tbl : Prim → TypeInfo) (name : String)
    (hdecl : name ∈ declaredNames) (hne : name ≠ "STKVertexTexOut") :
    (∃ h m, findStruct .host name = some h ∧ findStruct .metal name = some m ∧
        h.name = m.name ∧ h.fields.map Field.erase = m.fields.map Field.erase) ∧
      ∃ L, layoutOf tbl .host name = some L ∧ layoutOf tbl .metal name = some L := by
  have hnames : declaredNames = structNames .host ++ ["STKVertexTexOut"] := by decide
  have hmem : name ∈ structNames .host := by
    rw [hnames] at hdecl
    simpa [hne] using hdecl
  constructor
  · have hall : ∀ n ∈ structNames .host, sameDecl n = true := by decide
    have hs := hall name hmem
    unfold sameDecl at hs
    cases hh : findStruct .host name with
    | none => simp [hh] at hs
    | some h =>
      cases hm : findStruct .metal name with
      | none => simp [hh, hm] at hs
      | some m =>
        simp only [hh, hm, decide_eq_true_eq, Struct.erase, Prod.mk.injEq] at hs
        exact ⟨h, m, rfl, rfl, hs.1, hs.2⟩
  · obtain ⟨L, hL⟩ := layoutOf_some tbl .host name hmem
    exact ⟨L, hL, by rw [← layoutOf_host_eq_metal tbl name hne]; exact hL⟩

/-- Witness for C3 (amended) at `STKUniformsCube` under the standard table. -/
theorem layout_same_on_both_targets_witness :
    "STKUniformsCube" ∈ declaredNames ∧ "STKUniformsCube" ≠ "STKVertexTexOut" ∧
      ((∃ h m, findStruct .host "STKUniformsCube" = some h ∧
          findStruct .metal "STKUniformsCube" = some m ∧
          h.name = m.name ∧ h.fields.map Field.erase = m.fields.map Field.erase) ∧
        ∃ L, layoutOf stdTable .host "STKUniformsCube" = some L ∧
          layoutOf stdTable .metal "STKUniformsCube" = some L) :=
  ⟨by decide, by decide,
    layout_same_on_both_targets stdTable "STKUniformsCube" (by decide) (by decide)⟩

/-- C4: for every struct the host declares (in particular every uniform
block, such as `STKUniformsDepthOverlay`) and every value of it, storing the
value through the host layout and loading the bytes through the shader layout
of the same struct gives back every cell (matrices, nested intrinsics,
scalars, flags, vectors) bit for bit. -/
theorem roundtrip_host_to_shader (name : String) (v : Value)
    (hname : name ∈ structNames .host) (hv : wellTyped .host name v = true) :
    ∃ bytes, serialize .host name v = some bytes ∧
      deserialize .metal name bytes = some v := by
  have hall : ∀ n ∈ structNames .host, layoutAgrees n = true := by decide!
  obtain ⟨_, bytes, _, _, hs, _, _, _, hd⟩ := roundtrip_core name v (hall name hname) hv
  exact ⟨bytes, hs, hd⟩

/-- Witness for C4: the depth-overlay block with intrinsics cx = 320,
cy = 240, fx = fy = 500, width = 640, height = 480, depthMin = 0.1,
depthMax = 5.0, alpha = 0.8. -/
theorem roundtrip_host_to_shader_witness :
    "STKUniformsDepthOverlay" ∈ structNames .host ∧
      wellTyped .host "STKUniformsDepthOverlay" depthOverlayExample = true ∧
      ∃ bytes, serialize .host "STKUniformsDepthOverlay" depthOverlayExample = some bytes ∧
        deserialize .metal "STKUniformsDepthOverlay" bytes = some depthOverlayExample :=
  ⟨by decide, by decide,
    roundtrip_host_to_shader "STKUniformsDepthOverlay" depthOverlayExample
      (by decide) (by decide)⟩

/-- C5: `STKIntrinsicsMetal` has exactly the six fields cx, cy, fx, fy
(floats) and width, height (unsigned 32-bit), in this order, for both targets;
under the standard table they are 4 bytes each at offsets 0, 4, 8, 12, 16,
20 without padding, and the struct has size 24 and alignment 4. -/
theorem intrinsics_layout (t : Target) :
    (findStruct t "STKIntrinsicsMetal").map (fun s => s.fields.map Field.erase) =
        some [(.prim .float, "cx"), (.prim .float, "cy"), (.prim .float, "fx"),
              (.prim .float, "fy"), (.prim .uint32_t, "width"),
              (.prim .uint32_t, "height")] ∧
      fieldTable stdTable t "STKIntrinsicsMetal" =
        some [("cx", 0, 4, 4), ("cy", 4, 4, 4), ("fx", 8, 4, 4), ("fy", 12, 4, 4),
              ("width", 16, 4, 4), ("height", 20, 4, 4)] ∧
      sizeOf stdTable t "STKIntrinsicsMetal" = some 24 ∧
      alignOf stdTable t "STKIntrinsicsMetal" = some 4 ∧
      (layoutOf stdTable t "STKIntrinsicsMetal").map
        (fun L => (L.fields.map fun f => f.size).sum) = some 24 := by
  cases t <;> exact ⟨by decide, by decide!, by decide!, by decide!, by decide!⟩

/-- C6: the flags `useOcclusion` (`STKUniformsCube`, offset 216) and `useXray`
(`STKUniformsMeshWireframe`, offset 144) are one `bool` byte at the same
offset for both targets, the whole layout (every field offset, the size) is
the same for both targets, and for either value of the flag the bytes stored
through the host layout and through the shader layout are the same, of the
same length, with the flag byte at that offset. -/
theorem bool_flag_same_on_both_targets (name field : String) (off size : Nat)
    (flag : Bool) (cells : Value)
    (hname : (name, field, off, size) ∈
      [("STKUniformsCube", "useOcclusion", 216, 224),
       ("STKUniformsMeshWireframe", "useXray", 144, 160)])
    (hv : wellTyped .host name (cells ++ [[boolByte flag]]) = true) :
    fieldLayout stdTable .host name field = some ⟨field, .prim .bool, off, 1, 1⟩ ∧
      fieldLayout stdTable .metal name field = some ⟨field, .prim .bool, off, 1, 1⟩ ∧
      layoutOf stdTable .host name = layoutOf stdTable .metal name ∧
      sizeOf stdTable .host name = some size ∧
      ∃ bytes, serialize .host name (cells ++ [[boolByte flag]]) = some bytes ∧
        serialize .metal name (cells ++ [[boolByte flag]]) = some bytes ∧
        bytes.length = size ∧ (bytes.drop off).take 1 = [boolByte flag] := by
  have hlast : (layoutOf stdTable .host name).map
      (fun L => (L.leaves.getLast?.map fun l => (l.offset, l.size), L.size)) =
      some (some (off, 1), size) := by
    simp only [List.mem_cons, Prod.mk.injEq, List.mem_singleton, List.not_mem_nil,
      or_false] at hname
    rcases hname with ⟨rfl, rfl, rfl, rfl⟩ | ⟨rfl, rfl, rfl, rfl⟩ <;> decide!
  have hagree : layoutAgrees name = true := by
    simp only [List.mem_cons, Prod.mk.injEq, List.mem_singleton, List.not_mem_nil,
      or_false] at hname
    rcases hname with ⟨rfl, rfl, rfl, rfl⟩ | ⟨rfl, rfl, rfl, rfl⟩ <;> decide!
  obtain ⟨L, bytes, hL, hM, hs, hm, hlen, hread, _⟩ := roundtrip_core name _ hagree hv
  simp only [hL, Option.map_some', Option.some.injEq, Prod.mk.injEq] at hlast
  obtain ⟨hleaf, hsize⟩ := hlast
  have hslice : (bytes.drop off).take 1 = [boolByte flag] := by
    have h1 := congrArg List.getLast? hread
    simp only [readLeaves, List.getLast?_map, List.getLast?_append, List.getLast?_singleton,
      Option.or] at h1
    cases hl : L.leaves.getLast? with
    | none => simp [hl] at hleaf
    | some l =>
      simp only [hl, Option.map_some', Option.some.injEq, Prod.mk.injEq] at hleaf h1
      rw [hleaf.1, hleaf.2] at h1
      exact h1
  refine ⟨?_, ?_, ?_, ?_, bytes, hs, hm, by omega, hslice⟩
  all_goals
    simp only [List.mem_cons, Prod.mk.injEq, List.mem_singleton, List.not_mem_nil,
      or_false] at hname
    rcases hname with ⟨rfl, rfl, rfl, rfl⟩ | ⟨rfl, rfl, rfl, rfl⟩ <;> decide!

/-- Witness for C6: a cube block with all-zero matrices and intrinsics and
the occlusion flag set. -/
theorem bool_flag_same_on_both_targets_witness :
    (("STKUniformsCube", "useOcclusion", 216, 224) ∈
        [("STKUniformsCube", "useOcclusion", 216, 224),
         ("STKUniformsMeshWireframe", "useXray", 144, 160)]) ∧
      wellTyped .host "STKUniformsCube"
        ([List.replicate 64 0, List.replicate 64 0, List.replicate 64 0, le32 0, le32 0,
          le32 0, le32 0, le32 640, le32 480] ++ [[boolByte true]]) = true ∧
      (fieldLayout stdTable .host "STKUniformsCube" "useOcclusion" =
          some ⟨"useOcclusion", .prim .bool, 216, 1, 1⟩ ∧
        fieldLayout stdTable .metal "STKUniformsCube" "useOcclusion" =
          some ⟨"useOcclusion", .prim .bool, 216, 1, 1⟩ ∧
        layoutOf stdTable .host "STKUniformsCube" =
          layoutOf stdTable .metal "STKUniformsCube" ∧
        sizeOf stdTable .host "STKUniformsCube" = some 224 ∧
        ∃ bytes,
          serialize .host "STKUniformsCube"
            ([List.replicate 64 0, List.replicate 64 0, List.replicate 64 0, le32 0, le32 0,
              le32 0, le32 0, le32 640, le32 480] ++ [[boolByte true]]) = some bytes ∧
          serialize .metal "STKUniformsCube"
            ([List.replicate 64 0, List.replicate 64 0, List.replicate 64 0, le32 0, le32 0,
              le32 0, le32 0, le32 640, le32 480] ++ [[boolByte true]]) = some bytes ∧
          bytes.length = 224 ∧ (bytes.drop 216).take 1 = [boolByte true]) :=
  ⟨by decide, by decide,
    bool_flag_same_on_both_targets "STKUniformsCube" "useOcclusion" 216 224 true
      [List.replicate 64 0, List.replicate 64 0, List.replicate 64 0, le32 0, le32 0,
        le32 0, le32 0, le32 640, le32 480] (by decide) (by decide)⟩

/-- C7: in the shader build of `STKVertexNormal`, `STKVertexColor` and
`STKVertexTexModel` the first field is the 3D `position`, bound to attribute
index `STKVertexAttrPosition` = 0, the second field (normal, color or
texCoord) is bound to `STKVertexAttrAddition` = 1, and the i-th field carries
attribute index i. -/
theorem vertex_attribute_indices (name second : String)
    (hname : (name, second) ∈ [("STKVertexNormal", "normal"), ("STKVertexColor", "color"),
      ("STKVertexTexModel", "texCoord")]) :
    ∃ s f0 f1, findStruct .metal name = some s ∧ s.fields = [f0, f1] ∧
      f0.ty = .prim .vector_float3 ∧ f0.name = "position" ∧
      f0.attrs = [.attribute STKVertexAttrPosition] ∧ STKVertexAttrPosition = 0 ∧
      f1.name = second ∧
      f1.attrs = [.attribute STKVertexAttrAddition] ∧ STKVertexAttrAddition = 1 ∧
      s.fields.map (fun f => f.attrs) =
        (List.range s.fields.length).map fun i => [Attr.attribute i] := by
  simp only [List.mem_cons, Prod.mk.injEq, List.mem_singleton, List.not_mem_nil,
    or_false] at hname
  rcases hname with ⟨rfl, rfl⟩ | ⟨rfl, rfl⟩ | ⟨rfl, rfl⟩
  · exact ⟨expandStruct .metal STKVertexNormal, _, _, by decide, rfl, by decide, by decide,
      by decide, rfl, by decide, by decide, rfl, by decide⟩
  · exact ⟨expandStruct .metal STKVertexColor, _, _, by decide, rfl, by decide, by decide,
      by decide, rfl, by decide, by decide, rfl, by decide⟩
  · exact ⟨expandStruct .metal STKVertexTexModel, _, _, by decide, rfl, by decide, by decide,
      by decide, rfl, by decide, by decide, rfl, by decide⟩

/-- Witness for C7 at `STKVertexTexModel`. -/
theorem vertex_attribute_indices_witness :
    (("STKVertexTexModel", "texCoord") ∈ [("STKVertexNormal", "normal"),
        ("STKVertexColor", "color"), ("STKVertexTexModel", "texCoord")]) ∧
      ∃ s f0 f1, findStruct .metal "STKVertexTexModel" = some s ∧ s.fields = [f0, f1] ∧
        f0.ty = .prim .vector_float3 ∧ f0.name = "position" ∧
        f0.attrs = [.attribute STKVertexAttrPosition] ∧ STKVertexAttrPosition = 0 ∧
        f1.name = "texCoord" ∧
        f1.attrs = [.attribute STKVertexAttrAddition] ∧ STKVertexAttrAddition = 1 ∧
        s.fields.map (fun f => f.attrs) =
          (List.range s.fields.length).map fun i => [Attr.attribute i] :=
  ⟨by decide, vertex_attribute_indices "STKVertexTexModel" "texCoord" (by decide)⟩

/-- C8, as stated, fails: `STKUniformsColorTexture` is a uniform block whose
only field is the matrix `projection`, so not every uniform block has a
non-matrix field. -/
theorem colorTexture_has_only_a_matrix :
    (findStruct .host "STKUniformsColorTexture").map (fun s => s.fields.map Field.erase) =
        some [(.prim .matrix_float4x4, "projection")] ∧
      ¬ (∀ s ∈ uniformStructs .host,
          s.fields.any Field.isMatrix = true ∧
            s.fields.any (fun f => !f.isMatrix) = true) := by
  refine ⟨by decide, ?_⟩
  intro h
  have h1 := (h (expandStruct .host STKUniformsColorTexture) (by decide)).2
  revert h1
  decide

/-- C8, amended: for either target the header declares exactly ten uniform
block structs (color texture, depth texture, depth overlay, depth-band
overlay, line, cube, mesh, mesh-points, mesh-wireframe, thick-line); every
one of them has at least one 4x4 single-precision matrix field; eight of
them also have a non-matrix field, while `STKUniformsColorTexture` and
`STKUniformsLine` consist of matrices only. -/
theorem uniform_blocks (t : Target) (s : Struct) (hs : s ∈ uniformStructs t) :
    (uniformStructs t).map (fun u => u.name) =
        ["STKUniformsColorTexture", "STKUniformsDepthTexture", "STKUniformsDepthOverlay",
         "STKUniformsDepthBandOverlay", "STKUniformsLine", "STKUniformsCube",
         "STKUniformsMesh", "STKUniformsMeshPoints", "STKUniformsMeshWireframe",
         "STKUniformsThickLine"] ∧
      (uniformStructs t).length = 10 ∧
      s.fields.any Field.isMatrix = true ∧
      (s.fields.any (fun f => !f.isMatrix) = false ↔
        s.name = "STKUniformsColorTexture" ∨ s.name = "STKUniformsLine") := by
  have hall : ∀ u ∈ uniformStructs t,
      u.fields.any Field.isMatrix = true ∧
      (u.fields.any (fun f => !f.isMatrix) = false ↔
        u.name = "STKUniformsColorTexture" ∨ u.name = "STKUniformsLine") := by
    cases t <;> decide
  exact ⟨by cases t <;> decide, by cases t <;> decide, hall s hs⟩

/-- Witness for C8 (amended) at the host build of `STKUniformsLine`. -/
theorem uniform_blocks_witness :
    expandStruct .host STKUniformsLine ∈ uniformStructs .host ∧
      ((uniformStructs .host).map (fun u => u.name) =
          ["STKUniformsColorTexture", "STKUniformsDepthTexture", "STKUniformsDepthOverlay",
           "STKUniformsDepthBandOverlay", "STKUniformsLine", "STKUniformsCube",
           "STKUniformsMesh", "STKUniformsMeshPoints", "STKUniformsMeshWireframe",
           "STKUniformsThickLine"] ∧
        (uniformStructs .host).length = 10 ∧
        (expandStruct .host STKUniformsLine).fields.any Field.isMatrix = true ∧
        ((expandStruct .host STKUniformsLine).fields.any (fun f => !f.isMatrix) = false ↔
          (expandStruct .host STKUniformsLine).name = "STKUniformsColorTexture" ∨
            (expandStruct .host STKUniformsLine).name = "STKUniformsLine")) :=
  ⟨by decide, uniform_blocks .host (expandStruct .host STKUniformsLine) (by decide)⟩

/-- C9, as stated, fails: `STKVertexTexOut` is not seen by both targets (the
host target does not declare it), and the texture coordinate is not its only
field. -/
theorem texOut_not_in_host_catalog :
    findStruct .host "STKVertexTexOut" = none ∧
      ¬ (∀ t : Target, ∃ s, findStruct t "STKVertexTexOut" = some s ∧
          s.fields.map Field.erase = [(.prim .float2, "texCoord")]) := by
  refine ⟨by decide, ?_⟩
  intro h
  obtain ⟨s, hs, _⟩ := h .host
  have hnone : findStruct .host "STKVertexTexOut" = none := by decide
  rw [hnone] at hs
  cases hs

/-- C9, amended: `STKVertexTexOut` is declared for the shader target only
(inside `#if ST_IS_METAL`); there it has exactly two fields, the `float4`
position decorated `[[position]]` and the undecorated `float2` texCoord, so
the texture coordinate is its only field besides the position output.  The
other vertex formats (`STKVertexTex`, `STKVertexNormal`, `STKVertexColor`,
`STKVertexTexModel`) are declared for both targets. -/
theorem texOut_shader_only :
    findStruct .host "STKVertexTexOut" = none ∧
      findStruct .metal "STKVertexTexOut" =
        some ⟨"STKVertexTexOut",
          [⟨.prim .float4, "position", [.position]⟩, ⟨.prim .float2, "texCoord", []⟩]⟩ ∧
      (["STKVertexTex", "STKVertexNormal", "STKVertexColor", "STKVertexTexModel"].all
        fun name => (findStruct .host name).isSome && (findStruct .metal name).isSome) =
        true := by
  decide

/-- C10, as stated, fails in its last sentence: `STKIntrinsicsMetal` is
24 bytes, which is not a multiple of 16. -/
theorem intrinsics_size_not_multiple_of_16 :
    sizeOf stdTable .host "STKIntrinsicsMetal" = some 24 ∧ 24 % 16 ≠ 0 ∧
      ¬ (∀ name ∈ structNames .host, ∀ L, layoutOf stdTable .host name = some L →
          L.size % 16 = 0) := by
  refine ⟨by decide!, by decide, ?_⟩
  intro h
  have hL : layoutOf stdTable .host "STKIntrinsicsMetal" =
      some ⟨[⟨"cx", .prim .float, 0, 4, 4⟩, ⟨"cy", .prim .float, 4, 4, 4⟩,
             ⟨"fx", .prim .float, 8, 4, 4⟩, ⟨"fy", .prim .float, 12, 4, 4⟩,
             ⟨"width", .prim .uint32_t, 16, 4, 4⟩, ⟨"height", .prim .uint32_t, 20, 4, 4⟩],
            [⟨"cx", .float, 0, 4⟩, ⟨"cy", .float, 4, 4⟩, ⟨"fx", .float, 8, 4⟩,
             ⟨"fy", .float, 12, 4⟩, ⟨"width", .uint32_t, 16, 4⟩,
             ⟨"height", .uint32_t, 20, 4⟩], 24, 4⟩ := by decide!
  have h1 := h "STKIntrinsicsMetal" (by decide) _ hL
  revert h1
  decide

/-- C10, amended: under the standard alignment rules the 24-byte
`cameraIntrinsics` field at offset 128 of `STKUniformsDepthOverlay` and
`STKUniformsDepthBandOverlay` is followed by 8 bytes of padding, so
`cubeModelInv` sits at offset 160; the remaining offsets and the sizes 240
and 288 are as listed.  For every struct of either target every field offset
is a multiple of the field's alignment and the size is a multiple of the
struct's alignment; the size is a multiple of 16 for every struct except
`STKIntrinsicsMetal` (24 bytes, alignment 4). -/
theorem overlay_padding (t : Target) (name : String) (hname : name ∈ structNames t) :
    fieldTable stdTable t "STKUniformsDepthOverlay" =
        some [("projection", 0, 64, 16), ("cameraPose", 64, 64, 16),
              ("cameraIntrinsics", 128, 24, 4), ("cubeModelInv", 160, 64, 16),
              ("depthMin", 224, 4, 4), ("depthMax", 228, 4, 4), ("alpha", 232, 4, 4)] ∧
      sizeOf stdTable t "STKUniformsDepthOverlay" = some 240 ∧
      fieldTable stdTable t "STKUniformsDepthBandOverlay" =
        some [("projection", 0, 64, 16), ("cameraPose", 64, 64, 16),
              ("cameraIntrinsics", 128, 24, 4), ("cubeModelInv", 160, 64, 16),
              ("alpha", 224, 4, 4), ("validRangeMinMM", 228, 4, 4),
              ("validRangeMaxMM", 232, 4, 4), ("validRangeColor", 240, 16, 16),
              ("outOfRangeColor", 256, 16, 16), ("feather", 272, 4, 4)] ∧
      sizeOf stdTable t "STKUniformsDepthBandOverlay" = some 288 ∧
      160 = 128 + 24 + 8 ∧
      sizeOf stdTable t "STKIntrinsicsMetal" = some 24 ∧
      alignOf stdTable t "STKIntrinsicsMetal" = some 4 ∧
      ∃ L, layoutOf stdTable t name = some L ∧
        (∀ f ∈ L.fields, f.offset % f.align = 0) ∧ L.size % L.align = 0 ∧
        (name ≠ "STKIntrinsicsMetal" → L.size % 16 = 0) := by
  have hall : ∀ n ∈ structNames t, alignedLayout t n = true := by
    cases t <;> decide!
  have hn := hall name hname
  refine ⟨by cases t <;> decide!, by cases t <;> decide!, by cases t <;> decide!,
    by cases t <;> decide!, by decide, by cases t <;> decide!, by cases t <;> decide!, ?_⟩
  unfold alignedLayout at hn
  cases hL : layoutOf stdTable t name with
  | none => simp [hL] at hn
  | some L =>
    simp only [hL, Bool.and_eq_true, Bool.or_eq_true, List.all_eq_true, beq_iff_eq] at hn
    obtain ⟨⟨hoff, hsz⟩, h16⟩ := hn
    refine ⟨L, rfl, hoff, hsz, ?_⟩
    intro hne
    rcases h16 with h | h
    · exact absurd h hne
    · exact h

/-- Witness for C10 (amended) at the host build of `STKUniformsDepthOverlay`. -/
theorem overlay_padding_witness :
    "STKUniformsDepthOverlay" ∈ structNames .host ∧
      ∃ L, layoutOf stdTable .host "STKUniformsDepthOverlay" = some L ∧
        (∀ f ∈ L.fields, f.offset % f.align = 0) ∧ L.size % L.align = 0 ∧
        ("STKUniformsDepthOverlay" ≠ "STKIntrinsicsMetal" → L.size % 16 = 0) :=
  ⟨by decide, (overlay_padding .host "STKUniformsDepthOverlay" (by decide)).2.2.2.2.2.2.2⟩

end STKMetalData
